import Mathlib

/-!
# Verification of the robo-mom indexing/retrieval core

Shallow embedding of the core pipeline of the `robo-mom` repository:

* `src/chunk-text.ts` — the hierarchical Markdown chunker (`chunkMarkdown`, `chunkText`);
* `src/query-documents.ts` — the dual-channel vector retriever (`queryDocuments`);
* the ripgrep wrapper module (`executeRipgrepSearch`);
* `src/data-loader.ts` — the checksum-gated incremental indexer (`loadMarkdownFileToDb`).

Text is modelled as `List Char` (one entry per UTF-16-ish code point of the
JavaScript string; all inputs used here are ASCII so the correspondence is
exact).  External collaborators (embedding model, SHA-256, frontmatter parser,
the Postgres store, the ripgrep process) are modelled as explicit function
parameters or explicit input data, following the repository's own external
interface boundaries.
-/

/-- Decidable equality for `Except`, so that concrete runs of the fallible
operations can be checked by `decide`. -/
instance {ε α : Type} [DecidableEq ε] [DecidableEq α] : DecidableEq (Except ε α) := fun x y =>
  match x, y with
  | .ok a, .ok b =>
    if h : a = b then isTrue (by rw [h]) else isFalse (by simp [h])
  | .error a, .error b =>
    if h : a = b then isTrue (by rw [h]) else isFalse (by simp [h])
  | .ok _, .error _ => isFalse (by simp)
  | .error _, .ok _ => isFalse (by simp)

namespace RoboMom

/-- Characters treated as whitespace by JavaScript's `String.prototype.trim`
(restricted to the ASCII whitespace actually occurring in the repository's
data: space, tab, newline, carriage return). -/
def wsChar (c : Char) : Bool :=
  c = ' ' || c = '\t' || c = '\n' || c = '\r'

/-- `blank l` models the JavaScript test `l.trim().length === 0`:
every character is whitespace. -/
def blank (l : List Char) : Bool := l.all wsChar

/-- Model of JavaScript `String.prototype.trim` on the left end only. -/
def trimLeftWs (l : List Char) : List Char := l.dropWhile wsChar

/-- Model of JavaScript `String.prototype.trim` on the right end only. -/
def trimRightWs (l : List Char) : List Char := (l.reverse.dropWhile wsChar).reverse

/-- Model of JavaScript `String.prototype.trim`: drop whitespace from both ends. -/
def trimWs (l : List Char) : List Char := trimRightWs (trimLeftWs l)

/-!
## JavaScript `String.prototype.split`

The chunker splits with two kinds of regexes:

* plain consuming separators (`/\n\n/`, `/\n/`, `/\. /`) — each non-overlapping
  occurrence of the separator text is removed and separates two segments;
* zero-width multiline lookaheads (`/(?=^# )/m` … `/(?=^###### )/m`) — the
  split point is placed immediately before a heading marker that follows a
  newline, no characters are consumed.  Per the ECMAScript `split` algorithm a
  zero-width match at the start of the current segment is skipped, so a heading
  at position 0 does not produce a leading empty segment.
-/

/-- Worker for the consuming split: `acc` holds the (reversed) current segment
and `skip` the number of still-unconsumed separator characters.  At `skip = 0`,
whenever `sep` (assumed nonempty) is a prefix of the rest, the current segment
is closed and the separator's characters are consumed (the head here, the
remaining `sep.length - 1` via the skip counter). -/
def splitSubGo (sep : List Char) : Nat → List Char → List Char → List (List Char)
  | _, acc, [] => [acc.reverse]
  | skip + 1, acc, _ :: rest => splitSubGo sep skip acc rest
  | 0, acc, c :: rest =>
    if sep.isPrefixOf (c :: rest) && !sep.isEmpty then
      acc.reverse :: splitSubGo sep (sep.length - 1) [] rest
    else
      splitSubGo sep 0 (c :: acc) rest

/-- JavaScript `text.split(sep)` for a plain (consuming) separator text:
non-overlapping occurrences of `sep`, scanned left to right, delimit the
segments and are removed. -/
def splitSub (sep : List Char) (l : List Char) : List (List Char) :=
  splitSubGo sep 0 [] l

/-- The heading marker matched by `/(?=^#…# )/m` at level `k`:
`k` hash signs followed by a space. -/
def headerMark (k : Nat) : List Char := List.replicate k '#' ++ [' ']

/-- Worker for the zero-width heading split: a split point lies between a
newline and a following heading marker; the newline stays with the previous
segment and no characters are consumed. -/
def splitHeaderGo (k : Nat) : List Char → List Char → List (List Char)
  | acc, [] => [acc.reverse]
  | acc, c :: rest =>
    if c = '\n' && (headerMark k).isPrefixOf rest then
      (acc.reverse ++ [c]) :: splitHeaderGo k [] rest
    else
      splitHeaderGo k (c :: acc) rest

/-- JavaScript `text.split(/(?=^#…# )/m)` at heading level `k`. -/
def splitHeader (k : Nat) (l : List Char) : List (List Char) :=
  splitHeaderGo k [] l

/-!
## The chunker (`src/chunk-text.ts`)
-/

/-- The separators of `chunkMarkdown`, in priority order. -/
inductive Sep
  | header (level : Nat)
  | para
  | line
  | sentence
deriving DecidableEq, Repr

/-- `text.split(separator)` for each separator regex. -/
def Sep.split : Sep → List Char → List (List Char)
  | .header k, l => splitHeader k l
  | .para, l => splitSub ['\n', '\n'] l
  | .line, l => splitSub ['\n'] l
  | .sentence, l => splitSub ['.', ' '] l

/-- Source: `separator.toString().includes("^")` — true exactly for the six
heading lookaheads. -/
def Sep.isHeader : Sep → Bool
  | .header _ => true
  | _ => false

/-- Source: the string the chunker glues between segments,
`separator.toString().replace(/\\/g, "").replace(/\(\?=|\)/g, "")` (and `""`
for heading separators).  `RegExp.prototype.toString` keeps the enclosing
slashes and source-escapes, so `/\n\n/` stringifies to the six characters
`/\n\n/` (slash, backslash, n, backslash, n, slash) and stripping backslashes
yields `/nn/`; likewise `/\n/ ↦ /n/` and `/\. / ↦ /. /`.  Note this is *not*
the separator text that was split on. -/
def Sep.sepStr : Sep → List Char
  | .header _ => []
  | .para => ['/', 'n', 'n', '/']
  | .line => ['/', 'n', '/']
  | .sentence => ['/', '.', ' ', '/']

/-- The priority-ordered separator list of `chunkMarkdown`. -/
def allSeps : List Sep :=
  [.header 1, .header 2, .header 3, .header 4, .header 5, .header 6,
   .para, .line, .sentence]

/-- The separator-selection loop of `chunkMarkdown`: split at each separator in
order, keep only non-blank segments, and skip the separator when it produced a
single segment or only segments that still exceed the limit. -/
def pickSep (charLimit : Nat) (text : List Char) : List Sep → Option (Sep × List (List Char))
  | [] => none
  | s :: rest =>
    let segments := (s.split text).filter (fun seg => !(blank seg))
    if segments.length = 1 ∨ (∀ seg ∈ segments, charLimit < seg.length) then
      pickSep charLimit text rest
    else
      some (s, segments)

/-- The greedy accumulation loop of `chunkMarkdown` over the chosen separator's
segments.  State: remaining segments, whether we are at the first segment
(`i === 0`), chunks already closed, and the running buffer `currentChunk`.
`recur` is the recursive `chunkMarkdown` call used for an oversized segment
when the buffer is empty.  Returns `none` when the recursive call runs out of
fuel. -/
def goSegs (recur : List Char → Option (List (List Char))) (sep : Sep)
    (charLimit : Nat) :
    List (List Char) → Bool → List (List Char) → List Char →
    Option (List (List Char))
  | [], _, chunksAcc, cur =>
    some (if 0 < cur.length then chunksAcc ++ [cur] else chunksAcc)
  | seg :: rest, isFirst, chunksAcc, cur =>
    let segWithSep := if isFirst || sep.isHeader then seg else sep.sepStr ++ seg
    if charLimit < cur.length + segWithSep.length ∧ 0 < cur.length then
      goSegs recur sep charLimit rest false (chunksAcc ++ [cur]) segWithSep
    else if charLimit < segWithSep.length then
      let chunksAcc' := if 0 < cur.length then chunksAcc ++ [cur] else chunksAcc
      match recur segWithSep with
      | none => none
      | some sub => goSegs recur sep charLimit rest false (chunksAcc' ++ sub) []
    else
      let cur' :=
        if 0 < cur.length ∧ isFirst = false ∧ sep.isHeader = false then
          cur ++ sep.sepStr ++ seg
        else cur ++ seg
      goSegs recur sep charLimit rest false chunksAcc cur'

/-- `chunkText(text, charLimit)` with the default `overlap = 0` (the only call
in the repository): blank text yields no chunks, otherwise fixed-size slices of
`charLimit` characters.  Fuelled because the source recursion diverges when
`charLimit = 0`; `none` represents a non-terminating run. -/
def chunkText : Nat → List Char → Nat → Option (List (List Char))
  | 0, _, _ => none
  | fuel + 1, text, charLimit =>
    if blank text then some []
    else if text.length ≤ charLimit then some [text]
    else
      let endIndex := if charLimit < text.length then charLimit else text.length
      match chunkText fuel (text.drop endIndex) charLimit with
      | none => none
      | some rest => some (text.take endIndex :: rest)

/-- The chunk contents produced by `chunkMarkdown(text, charLimit)`, in order.
Fuelled: the mutual recursion of the source has no evident termination measure
(and genuinely diverges for `charLimit = 0` via the `chunkText` fallback), so
`none` represents a run that did not finish within `fuel` recursion levels.
Any terminating run of the source is `some` for every sufficiently large fuel. -/
def chunkMarkdownC : Nat → Nat → List Char → Option (List (List Char))
  | 0, _, _ => none
  | fuel + 1, charLimit, text =>
    if text.length ≤ charLimit then some [text]
    else
      match pickSep charLimit text allSeps with
      | some (sep, segments) =>
        goSegs (chunkMarkdownC fuel charLimit) sep charLimit segments true [] []
      | none => chunkText (text.length + 1) text charLimit

/-- A chunk as returned by `chunkMarkdown`. -/
structure Chunk where
  content : List Char
  index : Nat
deriving DecidableEq, Repr

/-- Attach indices `0, 1, 2, …` positionally.  In the source every push into
the output array uses `currentIndex++` starting from `0` (and the fallback
uses the array-map index), so a chunk's `index` equals its position. -/
def withIndices (contents : List (List Char)) : List Chunk :=
  contents.enum.map (fun p => ⟨p.2, p.1⟩)

/-- `chunkMarkdown(text, charLimit)` including chunk indices. -/
def chunkMarkdown (fuel : Nat) (text : List Char) (charLimit : Nat) :
    Option (List Chunk) :=
  (chunkMarkdownC fuel charLimit text).map withIndices

/-- A separator is usable on `text` under the chunker's own criterion: after
dropping blank segments it yields other than exactly one segment and at least
one segment within the limit.  This is the condition under which the
`chunkMarkdown` separator loop accepts a separator (the negation of its
`continue` test). -/
def usableSep (charLimit : Nat) (text : List Char) (s : Sep) : Prop :=
  ¬(((s.split text).filter (fun seg => !(blank seg))).length = 1
     ∨ ∀ seg ∈ (s.split text).filter (fun seg => !(blank seg)), charLimit < seg.length)

instance (charLimit : Nat) (text : List Char) (s : Sep) :
    Decidable (usableSep charLimit text s) := by
  unfold usableSep; infer_instance

/-!
## `distinctBy` (Deno `@std/collections`)

Used by `queryDocuments` to deduplicate the merged channel results; keeps the
first occurrence of each key.
-/

/-- Worker: `seen` is the set of keys already emitted. -/
def distinctByGo {α β : Type} [DecidableEq β] (k : α → β) (seen : List β) :
    List α → List α
  | [] => []
  | x :: xs =>
    if k x ∈ seen then distinctByGo k seen xs
    else x :: distinctByGo k (k x :: seen) xs

/-- `distinctBy(array, selector)`: the elements of `l` with the first
occurrence of each `k`-key kept, in order of first occurrence. -/
def distinctBy {α β : Type} [DecidableEq β] (l : List α) (k : α → β) : List α :=
  distinctByGo k [] l

/-!
## The vector retriever (`src/query-documents.ts`)

The Index Store is an external collaborator; a row is modelled together with
the two similarity scores `1 - cosineDistance(…_vector, queryEmbedding)` the
store computes for it against the (fixed) query embedding, as exact rationals.
A channel query `select … where gt(sim, τ) orderBy desc(sim) limit n` is the
store's documented ordered/limited select: filter, sort descending, truncate.
-/

/-- A stored row together with its two store-computed similarities for the
current query: `fsim` against `filename_vector`, `csim` against `text_vector`. -/
structure QRow where
  id : Nat
  fsim : ℚ
  csim : ℚ
deriving DecidableEq, Repr

/-- The columns of a retrieval result that the claims are about: the record
`id` and the `similarity` computed in the channel that produced it.  (The
source also carries `filename`, `chunk_index`, `text`,
`frontmatter_attributes`, which are unaffected by merge/dedup.) -/
structure QDResult where
  id : Nat
  similarity : ℚ
deriving DecidableEq, Repr

/-- Descending-similarity order used by `orderBy desc(similarity)`. -/
def simGE (a b : QDResult) : Prop := b.similarity ≤ a.similarity

instance : DecidableRel simGE := fun a b => by unfold simGE; infer_instance

instance : IsTotal QDResult simGE := ⟨fun a b => le_total b.similarity a.similarity⟩

instance : IsTrans QDResult simGE :=
  ⟨fun _ _ _ h₁ h₂ => le_trans h₂ h₁⟩

/-- One similarity query of `queryDocuments`:
`db.select({id, …, similarity}).from(notesTable).where(gt(similarity, τ))
.orderBy(desc(similarity)).limit(limit)`. -/
def channelSelect (score : QRow → ℚ) (threshold : ℚ) (limit : Nat)
    (store : List QRow) : List QDResult :=
  ((((store.filter (fun r => decide (threshold < score r))).map
      (fun r => ({ id := r.id, similarity := score r } : QDResult))).insertionSort
      simGE).take limit)

/-- `queryDocuments(query, limit = 10)` from `src/query-documents.ts`:
rejects a blank query, runs the filename channel (threshold `0.4`) and the
content channel (threshold `0.3`), concatenates filename results before
content results, and deduplicates by `id`.  The source returns this merged
deduplicated list as is. -/
def queryDocuments (query : List Char) (limit : Nat) (store : List QRow) :
    Except String (List QDResult) :=
  if blank query then .error "Query is required"
  else
    let filenameResults := channelSelect (fun r => r.fsim) (mkRat 2 5) limit store
    let contentResults := channelSelect (fun r => r.csim) (mkRat 3 10) limit store
    let allResults := filenameResults ++ contentResults
    .ok (distinctBy allResults (fun x => x.id))

/-!
## The exact-match retriever (ripgrep wrapper)

`executeRipgrepSearch` is modelled as a function of the spawned process's
observable outcome: exit code, captured stdout and captured stderr.  A spawn
error (the `rg.on("error")` path) rejects with the spawn error itself and is
outside this state space.
-/

/-- JavaScript `output.split("\n")`. -/
def splitNl (l : List Char) : List (List Char) := splitSub ['\n'] l

/-- `output.split("\n").filter(line => line.trim())`: the non-blank lines. -/
def nonblankLines (l : List Char) : List (List Char) :=
  (splitNl l).filter (fun x => !(blank x))

/-- The number of non-blank lines. -/
def nbCount (l : List Char) : Nat := (nonblankLines l).length

/-- The result structure of a ripgrep search. -/
structure RipgrepResult where
  results : List (List Char)
  totalMatches : Nat
  limited : Bool
deriving DecidableEq, Repr

/-- The empty-result marker line `"No matches found"`. -/
def noMatchesLine : List Char := "No matches found".toList

/-- The synthetic trailing line
`` `... and ${results.length - maxResults} more results (limited to ${maxResults})` ``. -/
def moreResultsLine (extra maxResults : Nat) : List Char :=
  (s!"... and {extra} more results (limited to {maxResults})").toList

/-- The `close`-event handler of `executeRipgrepSearch`, given the process
exit code and the collected stdout/stderr. -/
def executeRipgrepSearch (maxResults : Nat) (exitCode : Int)
    (output errorOutput : List Char) : Except (List Char) RipgrepResult :=
  let totalMatches := nbCount output
  if exitCode = 0 then
    let results := nonblankLines (trimWs output)
    let limited := decide (maxResults < results.length)
    let limitedResults :=
      if limited then
        results.take maxResults
          ++ [moreResultsLine (results.length - maxResults) maxResults]
      else results.take maxResults
    .ok { results := if 0 < limitedResults.length then limitedResults else [noMatchesLine],
          totalMatches := totalMatches, limited := limited }
  else if exitCode = 1 then
    .ok { results := [noMatchesLine], totalMatches := 0, limited := false }
  else
    .error ("ripgrep failed: ".toList ++ errorOutput)

/-!
## The incremental indexer (`src/data-loader.ts`)

External collaborators are an explicit environment: the SHA-256 hex digest,
the embedding model (a deterministic function of input text and optional task
prefix), the frontmatter parser (`test` + `extract` from `@std/front-matter`),
and the chunker as invoked by the indexer (`chunkMarkdown(body, 12_000)`,
keeping only the contents, since the indexer numbers chunks with its own
sequential counter).  The store is a list of rows in insertion order; the
`limit(1)` select returns the first matching row in that order.
-/

/-- The optional task-instruction prefix of `generateEmbedding`. -/
inductive EmbedTask
  | search_query
  | search_document
deriving DecidableEq, Repr

/-- A persisted row of `notesTable` (vectors and parsed frontmatter are
opaque values produced by external collaborators). -/
structure NoteRecord where
  filename : String
  chunk_index : Nat
  text : List Char
  text_vector : List Int
  filename_vector : List Int
  checksum : String
  frontmatter_attributes : Option String
deriving DecidableEq, Repr

/-- The external collaborators of `loadMarkdownFileToDb`. -/
structure IndexEnv where
  /-- `calculateSHA256`: hex digest of the file content. -/
  sha256 : List Char → String
  /-- `generateEmbedding(input, taskInstructionPrefix?)`. -/
  embed : List Char → Option EmbedTask → List Int
  /-- `test` from `@std/front-matter/test`. -/
  fmTest : List Char → Bool
  /-- `extract` from `@std/front-matter/any`: parsed attributes and body. -/
  fmExtract : List Char → Option String × List Char
  /-- `chunkMarkdown(body, 12_000)`, chunk contents in order. -/
  chunker : List Char → List (List Char)

/-- `extractAttrsAndBody` from `src/data-loader.ts`. -/
def extractAttrsAndBody (env : IndexEnv) (content : List Char) :
    Option String × List Char :=
  if env.fmTest content then
    let e := env.fmExtract content
    (e.1, trimWs e.2)
  else
    (none, trimWs content)

/-- `db.select({checksum}).from(notesTable).where(eq(filename, path)).limit(1)`. -/
def dbSelectChecksum (store : List NoteRecord) (path : String) : List String :=
  ((store.filter (fun r => r.filename == path)).map (fun r => r.checksum)).take 1

/-- The batch of rows inserted for one file: chunk `i` carries the content
embedding of its text, the (per-chunk recomputed) embedding of the file path
with the `search_document` prefix, the whole-file checksum and the parsed
frontmatter. -/
def newRecords (env : IndexEnv) (path : String) (checksum : String)
    (attrs : Option String) (chunks : List (List Char)) : List NoteRecord :=
  chunks.enum.map (fun p =>
    { filename := path
      chunk_index := p.1
      text := p.2
      text_vector := env.embed p.2 none
      filename_vector := env.embed path.toList (some .search_document)
      checksum := checksum
      frontmatter_attributes := attrs })

/-- The observable outcome of one `loadMarkdownFileToDb` call. -/
structure IndexOutcome where
  /-- The store after the call. -/
  store : List NoteRecord
  /-- The returned boolean: `true` loaded, `false` skipped. -/
  processed : Bool
  /-- Number of `generateEmbedding` calls performed. -/
  embedCalls : Nat
  /-- Number of rows removed by the delete statement. -/
  deletedRows : Nat
  /-- Number of rows inserted. -/
  insertedRows : Nat
deriving Repr

/-- `loadMarkdownFileToDb(filePath)` from `src/data-loader.ts`, applied to the
file content read from disk: compute the checksum, look up one existing row
for this exact path, skip when its stored checksum matches; otherwise delete
all rows of the path (when any row exists), re-chunk and insert the new batch
in chunk order. -/
def loadMarkdownFileToDb (env : IndexEnv) (store : List NoteRecord)
    (path : String) (content : List Char) : IndexOutcome :=
  let checksum := env.sha256 content
  let existingNotes := dbSelectChecksum store path
  if existingNotes.head? = some checksum then
    { store := store, processed := false, embedCalls := 0,
      deletedRows := 0, insertedRows := 0 }
  else
    let store₁ :=
      if 0 < existingNotes.length then
        store.filter (fun r => !(r.filename == path))
      else store
    let deleted :=
      if 0 < existingNotes.length then
        (store.filter (fun r => r.filename == path)).length
      else 0
    let ab := extractAttrsAndBody env content
    let chunks := env.chunker ab.2
    let recs := newRecords env path checksum ab.1 chunks
    { store := store₁ ++ recs, processed := true,
      embedCalls := 2 * chunks.length, deletedRows := deleted,
      insertedRows := recs.length }

/-- Run a sequence of `loadMarkdownFileToDb` operations (path, file content)
against an initial store. -/
def runOps (env : IndexEnv) (init : List NoteRecord)
    (ops : List (String × List Char)) : List NoteRecord :=
  ops.foldl (fun st op => (loadMarkdownFileToDb env st op.1 op.2).store) init

/-- The persisted-record invariant of the spec's data model: any two distinct
rows sharing a `filename` share `checksum` and `filename_vector` and differ in
`chunk_index`. -/
def StoreInv (store : List NoteRecord) : Prop :=
  store.Pairwise (fun r s => r.filename = s.filename →
    r.checksum = s.checksum ∧ r.filename_vector = s.filename_vector ∧
    r.chunk_index ≠ s.chunk_index)

/-- Segments joined with a fixed separator text: the reference shape for the
chunk-reconstruction property. -/
def joinSep (sep : List Char) : List (List Char) → List Char
  | [] => []
  | [x] => x
  | x :: y :: xs => x ++ sep ++ joinSep sep (y :: xs)

/-!
## Claim C9 — single-chunk fast path
-/

/-- C9: for every text and charLimit with `text.length ≤ charLimit` —
including the empty string and whitespace-only text — `chunkMarkdown`
returns exactly one chunk whose content is the whole input text and whose
index is 0. -/
theorem chunkMarkdown_whole_text (fuel charLimit : Nat) (text : List Char)
    (h : text.length ≤ charLimit) :
    chunkMarkdown (fuel + 1) text charLimit = some [⟨text, 0⟩] := by
  simp [chunkMarkdown, chunkMarkdownC, h, withIndices, List.enum, List.enumFrom]

/-- C9 witness: the hypothesis is satisfied at the 3-character input `" a "`
with `charLimit = 5`, and the theorem yields the single whole-text chunk. -/
theorem chunkMarkdown_whole_text_witness :
    (" a ".toList.length ≤ 5) ∧
      chunkMarkdown 1 " a ".toList 5 = some [⟨" a ".toList, 0⟩] :=
  ⟨by decide, chunkMarkdown_whole_text 0 5 " a ".toList (by decide)⟩

/-!
## Claim C2 — the chunk-size bound fails in the code

On `"x\n\naaaa bbbb. cccc dddd. eeee"` with `charLimit = 10` the paragraph
separator is chosen (segments `"x"` and the 26-character remainder).  The
oversized second segment arrives while the buffer holds `"x"`, so the first
branch of the loop fires: it flushes the buffer and *parks the oversized
segment in the buffer instead of recursively re-chunking it* (the recursion
branch is reachable only when the buffer is empty).  The oversized segment is
finally emitted as a 30-character chunk even though the sentence separator
could still subdivide it into pieces within the limit.
-/

/-- C2: counter-evidence for the chunk-size invariant: the code emits the
30-character chunk `"/nn/aaaa bbbb. cccc dddd. eeee"` under `charLimit = 10`,
and that chunk is *not* an unsplittable atomic unit — the sentence separator
subdivides it with at least one piece within the limit (`usableSep`), so the
claimed exception does not apply.  The claim (and the function's own doc
comment, "the maximum number of characters per chunk") is the intent; the
branch ordering in the code is the slip. -/
theorem chunkMarkdown_oversized_chunk :
    chunkMarkdown 3 "x\n\naaaa bbbb. cccc dddd. eeee".toList 10
      = some [⟨"x".toList, 0⟩, ⟨"/nn/aaaa bbbb. cccc dddd. eeee".toList, 1⟩]
    ∧ 10 < "/nn/aaaa bbbb. cccc dddd. eeee".toList.length
    ∧ usableSep 10 "/nn/aaaa bbbb. cccc dddd. eeee".toList .sentence :=
  ⟨by decide, by decide, by decide⟩

/-!
## Claim C3 — what text is re-attached between segments

For the non-heading separators the chunker does *not* re-attach the separator
text: it re-attaches `separator.toString()` with backslashes stripped, i.e.
`"/nn/"`, `"/n/"`, `"/. /"` (slashes included).  Concatenating chunks hence
reconstructs the non-blank segments joined by that mangled string, not the
original body.
-/

/-- A non-heading separator's glue string is nonempty. -/
theorem Sep.sepStr_ne_nil (s : Sep) (h : s.isHeader = false) : s.sepStr ≠ [] := by
  cases s <;> simp_all [Sep.sepStr, Sep.isHeader]

/-- What a successful `pickSep` returns: the blank-filtered segments of the
chosen separator, which passed the usability test. -/
theorem pickSep_eq (charLimit : Nat) (text : List Char) :
    ∀ (seps : List Sep) (sep : Sep) (segs : List (List Char)),
      pickSep charLimit text seps = some (sep, segs) →
      segs = (sep.split text).filter (fun seg => !(blank seg)) ∧
        ¬(segs.length = 1 ∨ ∀ seg ∈ segs, charLimit < seg.length)
  | [], _, _, h => by simp [pickSep] at h
  | s :: rest, sep, segs, h => by
    rw [pickSep] at h
    split at h
    · exact pickSep_eq charLimit text rest sep segs h
    · rename_i hcond
      obtain ⟨rfl, rfl⟩ := Prod.mk.injEq .. ▸ Option.some.injEq .. ▸ h
      exact ⟨rfl, hcond⟩

/-- A successful `pickSep` never returns an empty segment list (for `[]` the
"all segments exceed the limit" test is vacuously true and the separator is
skipped). -/
theorem pickSep_ne_nil {charLimit : Nat} {text : List Char} {seps : List Sep}
    {sep : Sep} {segs : List (List Char)}
    (h : pickSep charLimit text seps = some (sep, segs)) : segs ≠ [] := by
  rintro rfl
  exact (pickSep_eq charLimit text seps sep [] h).2 (Or.inr (by simp))

/-- Every segment a successful `pickSep` returns is non-blank (hence
nonempty). -/
theorem pickSep_nonblank {charLimit : Nat} {text : List Char} {seps : List Sep}
    {sep : Sep} {segs : List (List Char)}
    (h : pickSep charLimit text seps = some (sep, segs)) :
    ∀ seg ∈ segs, blank seg = false := by
  obtain ⟨rfl, -⟩ := pickSep_eq charLimit text seps sep segs h
  intro seg hseg
  simpa using (List.mem_filter.mp hseg).2

/-- A non-blank character list is nonempty. -/
theorem ne_nil_of_not_blank {l : List Char} (h : blank l = false) : l ≠ [] := by
  rintro rfl
  simp [blank] at h

/-- The greedy loop of `chunkMarkdown`, once the buffer is nonempty and past
the first segment of a non-heading separator, never recurses (an oversized
incoming segment is parked in the buffer by the first branch instead), and the
concatenation of everything it emits is the closed chunks, the buffer, and all
remaining segments each prefixed by the glue string `sep.sepStr`. -/
theorem goSegs_flatten (recur : List Char → Option (List (List Char))) (sep : Sep)
    (charLimit : Nat) (hhead : sep.isHeader = false) :
    ∀ (segs chunksAcc : List (List Char)) (cur : List Char), cur ≠ [] →
      ∃ out, goSegs recur sep charLimit segs false chunksAcc cur = some out ∧
        out.flatten = chunksAcc.flatten ++ cur
          ++ (segs.map (fun s => sep.sepStr ++ s)).flatten
  | [], chunksAcc, cur, hcur => by
    refine ⟨_, rfl, ?_⟩
    simp [List.length_pos.mpr hcur]
  | seg :: rest, chunksAcc, cur, hcur => by
    rw [goSegs]
    simp only [Bool.false_or, hhead, Bool.false_eq_true, if_false,
      eq_self_iff_true, true_and, and_true]
    by_cases h1 : charLimit < cur.length + (sep.sepStr ++ seg).length ∧ 0 < cur.length
    · rw [if_pos h1]
      obtain ⟨out, hout, hflat⟩ := goSegs_flatten recur sep charLimit hhead rest
        (chunksAcc ++ [cur]) (sep.sepStr ++ seg)
        (by simp [Sep.sepStr_ne_nil sep hhead])
      exact ⟨out, hout, by simp [hflat]⟩
    · rw [if_neg h1]
      have hcurpos : 0 < cur.length := List.length_pos.mpr hcur
      have hfit : (sep.sepStr ++ seg).length ≤ charLimit := by
        rcases not_and_or.mp h1 with h | h
        · omega
        · omega
      rw [if_neg (by omega)]
      rw [if_pos hcurpos]
      obtain ⟨out, hout, hflat⟩ := goSegs_flatten recur sep charLimit hhead rest
        chunksAcc (cur ++ sep.sepStr ++ seg) (by simp [hcur])
      exact ⟨out, hout, by simp [hflat]⟩

/-- `joinSep` in head-tail form. -/
theorem joinSep_cons (sep : List Char) (x : List Char) (xs : List (List Char)) :
    joinSep sep (x :: xs) = x ++ (xs.map (fun y => sep ++ y)).flatten := by
  induction xs generalizing x with
  | nil => simp [joinSep]
  | cons y ys ih => simp [joinSep, ih y]

/-- C3 counterexample: splitting `"aa\n\nbb\n\ncc"` at the paragraph separator
with `charLimit = 5` yields the chunk `"/nn/bb"`, not `"\n\nbb"`: the text
re-attached to a non-first segment is not the separator text `"\n\n"`. -/
theorem chunkMarkdown_separator_counterexample :
    chunkMarkdown 2 "aa\n\nbb\n\ncc".toList 5
      = some [⟨"aa".toList, 0⟩, ⟨"/nn/bb".toList, 1⟩, ⟨"/nn/cc".toList, 2⟩]
    ∧ "/nn/bb".toList ≠ '\n' :: '\n' :: "bb".toList :=
  ⟨by decide, by decide⟩

/-- C3 amended: when `chunkMarkdown` splits at a non-heading separator
(paragraph break, line break or sentence break), the string re-attached to
every segment except the first is the separator regex's backslash-stripped
stringification `sep.sepStr` (`"/nn/"`, `"/n/"`, `"/. /"`) — not the separator
text — so, provided the first segment fits within the limit, concatenating the
resulting chunks in index order reconstructs the non-blank segments joined by
that glue string (the original body up to blank-segment drops and the
substitution of `sep.sepStr` for each separator occurrence). -/
theorem chunkMarkdown_reconstruction (fuel charLimit : Nat) (text : List Char)
    (sep : Sep) (segs : List (List Char))
    (hbig : charLimit < text.length)
    (hpick : pickSep charLimit text allSeps = some (sep, segs))
    (hhead : sep.isHeader = false)
    (hfirst : segs.headI.length ≤ charLimit) :
    ∃ out, chunkMarkdownC (fuel + 1) charLimit text = some out ∧
      out.flatten = joinSep sep.sepStr segs := by
  obtain ⟨s0, rest, rfl⟩ := List.exists_cons_of_ne_nil (pickSep_ne_nil hpick)
  have hs0 : s0 ≠ [] :=
    ne_nil_of_not_blank (pickSep_nonblank hpick s0 (List.mem_cons_self s0 rest))
  rw [chunkMarkdownC, if_neg (by omega), hpick]
  dsimp only
  rw [goSegs]
  simp only [Bool.true_or, if_true]
  rw [if_neg (by simp)]
  rw [if_neg (by simp [List.headI] at hfirst; omega)]
  rw [if_neg (by simp)]
  obtain ⟨out, hout, hflat⟩ :=
    goSegs_flatten (chunkMarkdownC fuel charLimit) sep charLimit hhead rest [] s0 hs0
  refine ⟨out, by simpa using hout, ?_⟩
  rw [hflat, joinSep_cons]
  simp

/-- C3 amended witness: at `"aa\n\nbb\n\ncc"` with limit 5 the paragraph
separator is picked with segments `"aa"`, `"bb"`, `"cc"`, and the chunk
concatenation is `"aa/nn/bb/nn/cc"`. -/
theorem chunkMarkdown_reconstruction_witness :
    pickSep 5 "aa\n\nbb\n\ncc".toList allSeps
        = some (.para, ["aa".toList, "bb".toList, "cc".toList])
    ∧ ∃ out, chunkMarkdownC 2 5 "aa\n\nbb\n\ncc".toList = some out ∧
        out.flatten = joinSep Sep.para.sepStr ["aa".toList, "bb".toList, "cc".toList] :=
  ⟨by decide,
   chunkMarkdown_reconstruction 1 5 "aa\n\nbb\n\ncc".toList .para
     ["aa".toList, "bb".toList, "cc".toList]
     (by decide) (by decide) (by decide) (by decide)⟩

/-!
## Properties of `distinctBy`
-/

/-- `distinctByGo` returns a sublist of its input. -/
theorem distinctByGo_sublist {α β : Type} [DecidableEq β] (k : α → β) :
    ∀ (seen : List β) (l : List α), List.Sublist (distinctByGo k seen l) l
  | _, [] => List.Sublist.refl []
  | seen, x :: xs => by
    rw [distinctByGo]
    split
    · exact (distinctByGo_sublist k seen xs).cons x
    · exact (distinctByGo_sublist k (k x :: seen) xs).cons₂ x

/-- No element emitted by `distinctByGo` has a key in `seen`. -/
theorem distinctByGo_not_seen {α β : Type} [DecidableEq β] (k : α → β) :
    ∀ (seen : List β) (l : List α) (x : α), x ∈ distinctByGo k seen l → k x ∉ seen
  | seen, [], x, hx => by simp [distinctByGo] at hx
  | seen, a :: l, x, hx => by
    rw [distinctByGo] at hx
    split at hx
    · exact distinctByGo_not_seen k seen l x hx
    · rcases List.mem_cons.mp hx with rfl | hx'
      · assumption
      · intro hk
        exact distinctByGo_not_seen k (k a :: seen) l x hx' (List.mem_cons_of_mem _ hk)

/-- The keys of `distinctByGo`'s output have no duplicates. -/
theorem distinctByGo_keys_nodup {α β : Type} [DecidableEq β] (k : α → β) :
    ∀ (seen : List β) (l : List α), ((distinctByGo k seen l).map k).Nodup
  | _, [] => by simp [distinctByGo]
  | seen, a :: l => by
    rw [distinctByGo]
    split
    · exact distinctByGo_keys_nodup k seen l
    · refine List.nodup_cons.mpr ⟨?_, distinctByGo_keys_nodup k (k a :: seen) l⟩
      intro hmem
      obtain ⟨x, hx, hkx⟩ := List.mem_map.mp hmem
      exact distinctByGo_not_seen k (k a :: seen) l x hx (hkx ▸ List.mem_cons_self _ _)

/-- Filtering `distinctByGo`'s output by a single key yields the first input
element with that key (and nothing when the key was already seen). -/
theorem distinctByGo_filter {α β : Type} [DecidableEq α] [DecidableEq β]
    (k : α → β) (key : β) :
    ∀ (seen : List β) (l : List α),
      (distinctByGo k seen l).filter (fun x => k x == key) =
        if key ∈ seen then [] else (l.filter (fun x => k x == key)).take 1
  | seen, [] => by simp [distinctByGo]
  | seen, a :: l => by
    rw [distinctByGo]
    by_cases hmem : k a ∈ seen
    · rw [if_pos hmem, distinctByGo_filter k key seen l]
      by_cases hkey : key ∈ seen
      · simp [hkey]
      · have hne : (k a == key) = false := by
          simp only [beq_eq_false_iff_ne, ne_eq]
          rintro rfl
          exact hkey hmem
        simp [hkey, List.filter_cons, hne]
    · rw [if_neg hmem]
      by_cases hak : k a = key
      · subst hak
        simp only [List.filter_cons, beq_self_eq_true, if_true]
        rw [distinctByGo_filter k (k a) (k a :: seen) l]
        rw [if_pos (List.mem_cons_self _ _)]
        simp [hmem, List.filter_cons]
      · have hne : (k a == key) = false := beq_eq_false_iff_ne.mpr hak
        simp only [List.filter_cons, hne, Bool.false_eq_true, if_false]
        rw [distinctByGo_filter k key (k a :: seen) l]
        by_cases hkey : key ∈ seen
        · simp [hkey]
        · have hnotin : key ∉ k a :: seen := by
            simp only [List.mem_cons]
            rintro (rfl | hk)
            · exact hak rfl
            · exact hkey hk
          simp [hnotin, hkey]

/-!
## Properties of the per-channel select
-/

/-- The per-channel select returns at most `limit` rows. -/
theorem channelSelect_length_le (score : QRow → ℚ) (threshold : ℚ) (limit : Nat)
    (store : List QRow) : (channelSelect score threshold limit store).length ≤ limit := by
  simp only [channelSelect]
  exact List.length_take_le limit _

/-- Membership in the un-truncated sorted channel list comes from a stored row
passing the threshold. -/
theorem channelSelect_mem {score : QRow → ℚ} {threshold : ℚ} {limit : Nat}
    {store : List QRow} {x : QDResult} (hx : x ∈ channelSelect score threshold limit store) :
    threshold < x.similarity := by
  unfold channelSelect at hx
  have hx₁ := (List.perm_insertionSort simGE _).mem_iff.mp (List.mem_of_mem_take hx)
  obtain ⟨r, hr, rfl⟩ := List.mem_map.mp hx₁
  have hdec := (List.mem_filter.mp hr).2
  simpa using hdec

/-- The per-channel select list is sorted by descending similarity. -/
theorem channelSelect_sorted (score : QRow → ℚ) (threshold : ℚ) (limit : Nat)
    (store : List QRow) : List.Sorted simGE (channelSelect score threshold limit store) :=
  (List.sorted_insertionSort simGE _).sublist (List.take_sublist _ _)

/-- When the stored `id`s are distinct, so are the `id`s of a channel's
result list. -/
theorem channelSelect_ids_nodup (score : QRow → ℚ) (threshold : ℚ) (limit : Nat)
    (store : List QRow) (h : (store.map QRow.id).Nodup) :
    ((channelSelect score threshold limit store).map QDResult.id).Nodup := by
  unfold channelSelect
  have h₁ : ((store.filter (fun r => decide (threshold < score r))).map QRow.id).Nodup :=
    h.sublist ((List.filter_sublist store).map QRow.id)
  have h₂ : (((store.filter (fun r => decide (threshold < score r))).map
      (fun r => ({ id := r.id, similarity := score r } : QDResult))).map QDResult.id).Nodup := by
    rw [List.map_map]
    exact h₁
  have h₃ := ((List.perm_insertionSort simGE _).map QDResult.id).nodup_iff.mpr h₂
  exact h₃.sublist ((List.take_sublist _ _).map QDResult.id)

/-!
## Claim C1 — shape of the merged retrieval result

The source merges the two channel lists (filename channel first), deduplicates
by `id` and returns that list as is: there is no sort of the merged list by
similarity and no truncation to `limit`, so the final list can hold up to
`2·limit` entries and need not be ordered by similarity.
-/

/-- C1 counterexample: with `limit = 1` and one row passing only the filename
channel (similarity `1/2`) and another passing only the content channel
(similarity `9/10`), `queryDocuments` returns *two* results — exceeding
`limit` — and they are not ordered by descending similarity. -/
theorem queryDocuments_counterexample :
    queryDocuments "q".toList 1 [⟨1, mkRat 1 2, 0⟩, ⟨2, 0, mkRat 9 10⟩]
      = .ok [⟨1, mkRat 1 2⟩, ⟨2, mkRat 9 10⟩]
    ∧ ¬(([⟨1, mkRat 1 2⟩, ⟨2, mkRat 9 10⟩] : List QDResult).length ≤ 1)
    ∧ ¬ List.Sorted simGE [(⟨1, mkRat 1 2⟩ : QDResult), ⟨2, mkRat 9 10⟩] :=
  ⟨by decide, by decide, by decide⟩

/-- C1 amended: for every non-blank query, the final result list is the
filename-channel result list followed by the content-channel result list,
deduplicated by record `id` (first instance kept); each channel list is
individually sorted by similarity descending, filtered by its own threshold
and truncated to `limit` — but the merged list is *not* re-sorted and *not*
truncated to `limit`: it only satisfies the weaker bound `length ≤ 2·limit`,
with pairwise-distinct `id`s and every similarity above the lower (content)
threshold `0.3`. -/
theorem queryDocuments_merged_shape (query : List Char) (limit : Nat)
    (store : List QRow) (hq : blank query = false) :
    ∃ res, queryDocuments query limit store = .ok res ∧
      res.length ≤ 2 * limit ∧
      (res.map QDResult.id).Nodup ∧
      (∀ x ∈ res, mkRat 3 10 < x.similarity) ∧
      List.Sorted simGE (channelSelect (fun r => r.fsim) (mkRat 2 5) limit store) ∧
      List.Sorted simGE (channelSelect (fun r => r.csim) (mkRat 3 10) limit store) := by
  refine ⟨distinctBy
      (channelSelect (fun r => r.fsim) (mkRat 2 5) limit store
        ++ channelSelect (fun r => r.csim) (mkRat 3 10) limit store)
      (fun x => x.id), ?_, ?_, ?_, ?_, ?_, ?_⟩
  · rw [queryDocuments, if_neg (by simp [hq])]
  · calc (distinctBy _ _).length
        ≤ ((channelSelect (fun r => r.fsim) (mkRat 2 5) limit store)
            ++ (channelSelect (fun r => r.csim) (mkRat 3 10) limit store)).length :=
          (distinctByGo_sublist _ _ _).length_le
      _ ≤ 2 * limit := by
          rw [List.length_append]
          have := channelSelect_length_le (fun r => r.fsim) (mkRat 2 5) limit store
          have := channelSelect_length_le (fun r => r.csim) (mkRat 3 10) limit store
          omega
  · exact distinctByGo_keys_nodup _ _ _
  · intro x hx
    have hx' := (distinctByGo_sublist _ _ _).subset hx
    rcases List.mem_append.mp hx' with h | h
    · exact lt_trans (by norm_num [mkRat]) (channelSelect_mem h)
    · exact channelSelect_mem h
  · exact channelSelect_sorted _ _ _ _
  · exact channelSelect_sorted _ _ _ _

/-- C1 amended witness: the counterexample store instantiates the amended
statement — the merged list has 2 ≤ 2·1 entries, distinct ids, both
similarities above `0.3`, and each channel list is sorted. -/
theorem queryDocuments_merged_shape_witness :
    blank "q".toList = false ∧
    ∃ res, queryDocuments "q".toList 1 [⟨1, mkRat 1 2, 0⟩, ⟨2, 0, mkRat 9 10⟩] = .ok res ∧
      res.length ≤ 2 * 1 ∧
      (res.map QDResult.id).Nodup ∧
      (∀ x ∈ res, mkRat 3 10 < x.similarity) ∧
      List.Sorted simGE
        (channelSelect (fun r => r.fsim) (mkRat 2 5) 1 [⟨1, mkRat 1 2, 0⟩, ⟨2, 0, mkRat 9 10⟩]) ∧
      List.Sorted simGE
        (channelSelect (fun r => r.csim) (mkRat 3 10) 1 [⟨1, mkRat 1 2, 0⟩, ⟨2, 0, mkRat 9 10⟩]) :=
  ⟨by decide, queryDocuments_merged_shape "q".toList 1 _ (by decide)⟩

/-!
## Claim C8 — deduplication keeps exactly one instance per id
-/

/-- Filtering a list with duplicate-free keys by the key of one of its
members yields exactly that member. -/
theorem filter_own_key {l : List QDResult} {x : QDResult}
    (hn : (l.map QDResult.id).Nodup) (hx : x ∈ l) :
    l.filter (fun z => z.id == x.id) = [x] := by
  induction l with
  | nil => cases hx
  | cons a l ih =>
    rw [List.map_cons, List.nodup_cons] at hn
    by_cases hak : a.id = x.id
    · have hax : a = x := by
        rcases List.mem_cons.mp hx with rfl | hx'
        · rfl
        · exact absurd (hak ▸ List.mem_map_of_mem QDResult.id hx') hn.1
      subst hax
      have hnil : l.filter (fun z => z.id == a.id) = [] := by
        refine List.filter_eq_nil_iff.mpr (fun z hz => ?_)
        simp only [beq_iff_eq]
        intro hzid
        exact hn.1 (hzid ▸ List.mem_map_of_mem QDResult.id hz)
      simp [List.filter_cons, hnil]
    · have hax : x ∈ l := by
        rcases List.mem_cons.mp hx with rfl | hx'
        · exact absurd rfl hak
        · exact hx'
      have hne : (a.id == x.id) = false := beq_eq_false_iff_ne.mpr hak
      simp only [List.filter_cons, hne, Bool.false_eq_true, if_false]
      exact ih hn.2 hax

/-- C8: every record id appears at most once in the final result list, and a
record returned by *both* similarity queries appears exactly once — as its
filename-channel (first-encountered) instance `x`. -/
theorem queryDocuments_dedup (query : List Char) (limit : Nat) (store : List QRow)
    (res : List QDResult) (x y : QDResult)
    (h : queryDocuments query limit store = .ok res)
    (hids : (store.map QRow.id).Nodup)
    (hx : x ∈ channelSelect (fun r => r.fsim) (mkRat 2 5) limit store)
    (_hy : y ∈ channelSelect (fun r => r.csim) (mkRat 3 10) limit store)
    (_hxy : y.id = x.id) :
    (res.map QDResult.id).Nodup ∧ res.filter (fun z => z.id == x.id) = [x] := by
  have hq : blank query = false := by
    by_contra hq'
    rw [queryDocuments, if_pos (by simpa using hq')] at h
    cases h
  rw [queryDocuments, if_neg (by simp [hq])] at h
  simp only [Except.ok.injEq] at h
  subst h
  refine ⟨distinctByGo_keys_nodup _ _ _, ?_⟩
  have hfilter := distinctByGo_filter (QDResult.id) x.id []
    (channelSelect (fun r => r.fsim) (mkRat 2 5) limit store
      ++ channelSelect (fun r => r.csim) (mkRat 3 10) limit store)
  rw [distinctBy]
  rw [hfilter, if_neg (by simp)]
  rw [List.filter_append]
  rw [filter_own_key (channelSelect_ids_nodup _ _ _ _ hids) hx]
  simp

/-- C8 witness: a single stored row whose filename similarity `1/2` exceeds
`0.4` and whose content similarity `2/5` exceeds `0.3` is returned by both
channels, and the final list keeps exactly its filename-channel instance. -/
theorem queryDocuments_dedup_witness :
    queryDocuments "q".toList 5 [⟨1, mkRat 1 2, mkRat 2 5⟩] = .ok [⟨1, mkRat 1 2⟩]
    ∧ (([⟨1, mkRat 1 2⟩] : List QDResult).map QDResult.id).Nodup
    ∧ ([(⟨1, mkRat 1 2⟩ : QDResult)].filter (fun z => z.id == (1 : Nat)))
        = [⟨1, mkRat 1 2⟩] := by
  refine ⟨by decide, ?_, ?_⟩
  · exact (queryDocuments_dedup "q".toList 5 [⟨1, mkRat 1 2, mkRat 2 5⟩]
      [⟨1, mkRat 1 2⟩] ⟨1, mkRat 1 2⟩ ⟨1, mkRat 2 5⟩ (by decide) (by decide)
      (by decide) (by decide) (by decide)).1
  · exact (queryDocuments_dedup "q".toList 5 [⟨1, mkRat 1 2, mkRat 2 5⟩]
      [⟨1, mkRat 1 2⟩] ⟨1, mkRat 1 2⟩ ⟨1, mkRat 2 5⟩ (by decide) (by decide)
      (by decide) (by decide) (by decide)).2

/-!
## Line counting for the exact-match retriever

`executeRipgrepSearch` counts `totalMatches` on the raw captured output but
builds `results` from the *trimmed* output.  Trimming only strips whitespace
(including newlines) from the two ends, so the number of non-blank lines is
the same in both — the lemmas below establish this consistency, which the
code silently relies on.
-/

/-- `splitNl` never returns the empty list. -/
theorem splitNlGo_ne_nil (acc l : List Char) : splitSubGo ['\n'] 0 acc l ≠ [] := by
  induction l generalizing acc with
  | nil => simp [splitSubGo]
  | cons c rest ih =>
    rw [splitSubGo]
    split
    · simp
    · exact ih (c :: acc)

/-- Accumulator lemma for the newline split. -/
theorem splitNlGo_acc (l : List Char) : ∀ acc : List Char,
    splitSubGo ['\n'] 0 acc l =
      (acc.reverse ++ (splitSubGo ['\n'] 0 [] l).headI)
        :: (splitSubGo ['\n'] 0 [] l).tail := by
  induction l with
  | nil => intro acc; simp [splitSubGo]
  | cons c rest ih =>
    intro acc
    by_cases hc : c = '\n'
    · subst hc
      rw [splitSubGo, splitSubGo]
      simp [List.isPrefixOf]
    · rw [splitSubGo, splitSubGo]
      simp only [List.isPrefixOf, Bool.and_true, List.isEmpty_cons, Bool.not_false,
        Bool.and_self]
      have hbeq : ('\n' == c) = false := by
        simp only [beq_eq_false_iff_ne, ne_eq]
        exact fun h => hc h.symm
      rw [if_neg (by simp [hbeq]), if_neg (by simp [hbeq])]
      rw [ih (c :: acc), ih [c]]
      simp

/-- Splitting at a leading newline prepends one empty line. -/
theorem splitNl_cons_newline (l : List Char) : splitNl ('\n' :: l) = [] :: splitNl l := by
  rw [splitNl, splitSub, splitSubGo]
  simp [List.isPrefixOf, splitNl, splitSub]

/-- Splitting after a leading non-newline character prepends it to the first
line. -/
theorem splitNl_cons (c : Char) (l : List Char) (hc : c ≠ '\n') :
    splitNl (c :: l) = (c :: (splitNl l).headI) :: (splitNl l).tail := by
  rw [splitNl, splitSub, splitSubGo]
  have hbeq : ('\n' == c) = false := by
    simp only [beq_eq_false_iff_ne, ne_eq]
    exact fun h => hc h.symm
  rw [if_neg (by simp [List.isPrefixOf, hbeq])]
  rw [splitNlGo_acc l [c]]
  simp [splitNl, splitSub]

/-- A blank leading character does not change the non-blank line count. -/
theorem nbCount_cons_ws (c : Char) (l : List Char) (hws : wsChar c = true) :
    nbCount (c :: l) = nbCount l := by
  by_cases hc : c = '\n'
  · subst hc
    simp [nbCount, nonblankLines, splitNl_cons_newline, List.filter_cons, blank]
  · obtain ⟨h, t, hS⟩ : ∃ h t, splitNl l = h :: t := by
      cases hS : splitNl l with
      | nil => exact absurd hS (splitNlGo_ne_nil [] l)
      | cons h t => exact ⟨h, t, rfl⟩
    have hbl : blank (c :: h) = blank h := by
      simp [blank, List.all_cons, hws]
    rw [nbCount, nonblankLines, splitNl_cons c l hc, hS]
    rw [nbCount, nonblankLines, hS]
    simp only [List.headI_cons, List.tail_cons]
    rw [List.filter_cons, List.filter_cons, hbl]
    split <;> rfl

/-- Left-trimming does not change the non-blank line count. -/
theorem nbCount_trimLeft (l : List Char) : nbCount (trimLeftWs l) = nbCount l := by
  induction l with
  | nil => rfl
  | cons c rest ih =>
    by_cases hws : wsChar c = true
    · rw [trimLeftWs, List.dropWhile_cons_of_pos hws, nbCount_cons_ws c rest hws]
      exact ih
    · rw [trimLeftWs, List.dropWhile_cons_of_neg (by simpa using hws)]

/-- Append one character to the last line of a line list. -/
def appendLast (c : Char) : List (List Char) → List (List Char)
  | [] => [[c]]
  | [x] => [x ++ [c]]
  | x :: y :: xs => x :: appendLast c (y :: xs)

/-- `appendLast` on a cons with nonempty tail. -/
theorem appendLast_cons (c : Char) (x : List Char) (xs : List (List Char))
    (h : xs ≠ []) : appendLast c (x :: xs) = x :: appendLast c xs := by
  cases xs with
  | nil => exact absurd rfl h
  | cons y ys => rfl

/-- Appending a trailing newline appends one empty line. -/
theorem splitNl_append_newline (l : List Char) :
    splitNl (l ++ ['\n']) = splitNl l ++ [[]] := by
  induction l with
  | nil => simp [splitNl, splitSub, splitSubGo, List.isPrefixOf]
  | cons a rest ih =>
    by_cases ha : a = '\n'
    · subst ha
      rw [List.cons_append, splitNl_cons_newline, splitNl_cons_newline, ih]
      rfl
    · rw [List.cons_append, splitNl_cons a _ ha, splitNl_cons a rest ha, ih]
      obtain ⟨h, t, hS⟩ : ∃ h t, splitNl rest = h :: t := by
        cases hS : splitNl rest with
        | nil => exact absurd hS (splitNlGo_ne_nil [] rest)
        | cons h t => exact ⟨h, t, rfl⟩
      simp [hS]

/-- Appending a trailing non-newline character extends the last line. -/
theorem splitNl_append_char (c : Char) (l : List Char) (hc : c ≠ '\n') :
    splitNl (l ++ [c]) = appendLast c (splitNl l) := by
  induction l with
  | nil => simp [splitNl, splitSub, splitSubGo, appendLast,
      List.isPrefixOf, beq_eq_false_iff_ne.mpr (fun h => hc h.symm)]
  | cons a rest ih =>
    by_cases ha : a = '\n'
    · subst ha
      rw [List.cons_append, splitNl_cons_newline, splitNl_cons_newline, ih]
      rw [appendLast_cons c [] (splitNl rest) (splitNlGo_ne_nil [] rest)]
    · rw [List.cons_append, splitNl_cons a _ ha, splitNl_cons a rest ha, ih]
      obtain ⟨h, t, hS⟩ : ∃ h t, splitNl rest = h :: t := by
        cases hS : splitNl rest with
        | nil => exact absurd hS (splitNlGo_ne_nil [] rest)
        | cons h t => exact ⟨h, t, rfl⟩
      rw [hS]
      cases t with
      | nil => simp [appendLast]
      | cons y ys =>
        rw [appendLast_cons c h (y :: ys) (by simp)]
        simp only [List.headI_cons, List.tail_cons]
        rw [appendLast_cons c (a :: h) (y :: ys) (by simp)]

/-- `appendLast` with a blank character preserves the non-blank count. -/
theorem filter_appendLast (c : Char) (hws : wsChar c = true) :
    ∀ L : List (List Char),
      ((appendLast c L).filter (fun x => !(blank x))).length
        = (L.filter (fun x => !(blank x))).length
  | [] => by simp [appendLast, List.filter_cons, blank, hws]
  | [x] => by
    have hbl : blank (x ++ [c]) = blank x := by
      simp [blank, List.all_append, hws]
    simp only [appendLast, List.filter_cons, hbl]
    split <;> rfl
  | x :: y :: xs => by
    have hrec := filter_appendLast c hws (y :: xs)
    rw [appendLast_cons c x (y :: xs) (by simp)]
    rw [List.filter_cons, List.filter_cons]
    split <;> simp_all

/-- A blank trailing character does not change the non-blank line count. -/
theorem nbCount_append_ws (c : Char) (l : List Char) (hws : wsChar c = true) :
    nbCount (l ++ [c]) = nbCount l := by
  by_cases hc : c = '\n'
  · subst hc
    simp [nbCount, nonblankLines, splitNl_append_newline, List.filter_append, blank]
  · rw [nbCount, nonblankLines, splitNl_append_char c l hc]
    exact filter_appendLast c hws (splitNl l)

/-- Right-trimming does not change the non-blank line count. -/
theorem nbCount_trimRight (l : List Char) : nbCount (trimRightWs l) = nbCount l := by
  induction l using List.reverseRecOn with
  | nil => rfl
  | append_singleton l c ih =>
    by_cases hws : wsChar c = true
    · have htrim : trimRightWs (l ++ [c]) = trimRightWs l := by
        simp [trimRightWs, List.dropWhile_cons_of_pos hws]
      rw [htrim, ih, nbCount_append_ws c l hws]
    · have htrim : trimRightWs (l ++ [c]) = l ++ [c] := by
        simp [trimRightWs, List.dropWhile_cons_of_neg (by simpa using hws)]
      rw [htrim]

/-- JavaScript-level consistency of `executeRipgrepSearch`: the number of
non-blank lines is invariant under trimming the captured output, so
`totalMatches` (computed on the raw output) agrees with the length of the
result-line list (computed on the trimmed output). -/
theorem nbCount_trimWs (l : List Char) : nbCount (trimWs l) = nbCount l := by
  rw [trimWs, nbCount_trimRight, nbCount_trimLeft]

/-!
## Claim C5 — exact-match truncation
-/

/-- C5: on a successful search (exit code 0) whose captured output holds `N`
non-blank matching lines: if `N > maxResults` the result list is the first
`maxResults` matching lines plus one synthetic trailing line — exactly
`maxResults + 1` entries — with `totalMatches = N` (the pre-truncation count)
and `limited = true`; if `1 ≤ N ≤ maxResults` all `N` lines are returned with
`totalMatches = N` and `limited = false`.  (Exit code 0 with zero captured
match lines does not occur: per the tool's contract exit code 0 means matches
were found.) -/
theorem executeRipgrepSearch_truncation (maxResults : Nat)
    (output errorOutput : List Char) (N : Nat)
    (hN : nbCount output = N) :
    (maxResults < N →
      executeRipgrepSearch maxResults 0 output errorOutput =
        .ok { results := (nonblankLines (trimWs output)).take maxResults
                ++ [moreResultsLine (N - maxResults) maxResults],
              totalMatches := N, limited := true }
      ∧ ((nonblankLines (trimWs output)).take maxResults
          ++ [moreResultsLine (N - maxResults) maxResults]).length = maxResults + 1)
    ∧ (0 < N → N ≤ maxResults →
      executeRipgrepSearch maxResults 0 output errorOutput =
        .ok { results := nonblankLines (trimWs output),
              totalMatches := N, limited := false }
      ∧ (nonblankLines (trimWs output)).length = N) := by
  have hlen : (nonblankLines (trimWs output)).length = N := by
    rw [show (nonblankLines (trimWs output)).length = nbCount (trimWs output) from rfl,
      nbCount_trimWs, hN]
  constructor
  · intro hlt
    have hlim : decide (maxResults < (nonblankLines (trimWs output)).length) = true := by
      simp [hlen, hlt]
    have htake : ((nonblankLines (trimWs output)).take maxResults).length = maxResults := by
      rw [List.length_take, hlen]
      omega
    constructor
    · rw [executeRipgrepSearch, if_pos rfl]
      simp only [hlen, hN]
      simp [hlt, htake]
    · simp [htake]
  · intro hpos hle
    have hlim : decide (maxResults < (nonblankLines (trimWs output)).length) = false := by
      simp [hlen]
      omega
    have htake : (nonblankLines (trimWs output)).take maxResults
        = nonblankLines (trimWs output) :=
      List.take_of_length_le (by omega)
    constructor
    · rw [executeRipgrepSearch, if_pos rfl]
      simp only [hlen, hN]
      have hnlt : ¬(maxResults < N) := by omega
      simp [hnlt, htake, hlen, hpos]
    · exact hlen

/-- C5 witness: five matching lines with `maxResults = 3` give 4 entries
(3 matches + summary), `totalMatches = 5`, `limited = true`; with
`maxResults = 50` all 5 lines come back un-truncated. -/
theorem executeRipgrepSearch_truncation_witness :
    (executeRipgrepSearch 3 0 "a:1:x\nb:2:y\nc:3:z\nd:4:w\ne:5:v\n".toList [] =
        .ok { results := (nonblankLines (trimWs "a:1:x\nb:2:y\nc:3:z\nd:4:w\ne:5:v\n".toList)).take 3
                ++ [moreResultsLine 2 3],
              totalMatches := 5, limited := true }
      ∧ ((nonblankLines (trimWs "a:1:x\nb:2:y\nc:3:z\nd:4:w\ne:5:v\n".toList)).take 3
          ++ [moreResultsLine 2 3]).length = 3 + 1)
    ∧ (executeRipgrepSearch 50 0 "a:1:x\nb:2:y\nc:3:z\nd:4:w\ne:5:v\n".toList [] =
        .ok { results := nonblankLines (trimWs "a:1:x\nb:2:y\nc:3:z\nd:4:w\ne:5:v\n".toList),
              totalMatches := 5, limited := false }
      ∧ (nonblankLines (trimWs "a:1:x\nb:2:y\nc:3:z\nd:4:w\ne:5:v\n".toList)).length = 5) :=
  ⟨(executeRipgrepSearch_truncation 3 "a:1:x\nb:2:y\nc:3:z\nd:4:w\ne:5:v\n".toList [] 5
      (by decide)).1 (by decide),
   (executeRipgrepSearch_truncation 50 "a:1:x\nb:2:y\nc:3:z\nd:4:w\ne:5:v\n".toList [] 5
      (by decide)).2 (by decide) (by decide)⟩

/-!
## Claim C6 — the three process-exit outcomes
-/

/-- C6: exit code 0 resolves successfully with `totalMatches` equal to the
non-blank line count of the captured output; exit code 1 resolves — a normal,
non-error outcome — with `totalMatches = 0`, `limited = false` and the single
empty-marker entry; any other exit code rejects with an error message
consisting of a fixed prefix followed by the captured stderr, so a zero-match
outcome (an `ok` value) is always distinguishable from a tool failure (an
`error` value). -/
theorem executeRipgrepSearch_exit_codes (maxResults : Nat) (exitCode : Int)
    (output errorOutput : List Char) :
    (exitCode = 0 →
      ∃ r, executeRipgrepSearch maxResults exitCode output errorOutput = .ok r
        ∧ r.totalMatches = nbCount output)
    ∧ (exitCode = 1 →
      executeRipgrepSearch maxResults exitCode output errorOutput
        = .ok { results := [noMatchesLine], totalMatches := 0, limited := false })
    ∧ (exitCode ≠ 0 → exitCode ≠ 1 →
      executeRipgrepSearch maxResults exitCode output errorOutput
        = .error ("ripgrep failed: ".toList ++ errorOutput)) := by
  refine ⟨?_, ?_, ?_⟩
  · rintro rfl
    rw [executeRipgrepSearch, if_pos rfl]
    exact ⟨_, rfl, rfl⟩
  · rintro rfl
    rw [executeRipgrepSearch, if_neg (by omega), if_pos rfl]
  · intro h0 h1
    rw [executeRipgrepSearch, if_neg h0, if_neg h1]

/-- C6 witness: the three outcomes at exit codes 0, 1 and 2 on concrete
captured streams. -/
theorem executeRipgrepSearch_exit_codes_witness :
    (∃ r, executeRipgrepSearch 50 0 "a:1:x\n".toList [] = .ok r
      ∧ r.totalMatches = nbCount "a:1:x\n".toList)
    ∧ executeRipgrepSearch 50 1 [] []
        = .ok { results := [noMatchesLine], totalMatches := 0, limited := false }
    ∧ executeRipgrepSearch 50 2 [] "regex parse error".toList
        = .error ("ripgrep failed: ".toList ++ "regex parse error".toList) :=
  ⟨(executeRipgrepSearch_exit_codes 50 0 "a:1:x\n".toList []).1 rfl,
   (executeRipgrepSearch_exit_codes 50 1 [] []).2.1 rfl,
   (executeRipgrepSearch_exit_codes 50 2 [] "regex parse error".toList).2.2
     (by decide) (by decide)⟩

/-!
## Properties of the incremental indexer
-/

/-- The first element of a filtered list is the first element satisfying the
predicate. -/
theorem head?_filter {α : Type} (p : α → Bool) :
    ∀ l : List α, (l.filter p).head? = l.find? p
  | [] => rfl
  | a :: l => by
    rw [List.filter_cons]
    by_cases h : p a = true
    · simp [h, List.find?_cons]
    · have h' : p a = false := by simpa using h
      simp [h', List.find?_cons, head?_filter p l]

/-- The limit-1 checksum select in terms of the first stored row for the
path. -/
theorem dbSelectChecksum_head? (store : List NoteRecord) (path : String) :
    (dbSelectChecksum store path).head? =
      (store.find? (fun r => r.filename == path)).map (fun r => r.checksum) := by
  rw [dbSelectChecksum, ← head?_filter]
  cases h : store.filter (fun r => r.filename == path) <;> simp [h]

/-- An empty limit-1 select means no row for the path is stored at all. -/
theorem dbSelectChecksum_eq_nil_iff (store : List NoteRecord) (path : String) :
    dbSelectChecksum store path = [] ↔
      store.filter (fun r => r.filename == path) = [] := by
  rw [dbSelectChecksum]
  cases h : store.filter (fun r => r.filename == path) <;> simp

/-- Every row of a freshly inserted batch carries the target path. -/
theorem newRecords_filename (env : IndexEnv) (path : String) (checksum : String)
    (attrs : Option String) (chunks : List (List Char)) :
    ∀ r ∈ newRecords env path checksum attrs chunks, r.filename = path := by
  intro r hr
  obtain ⟨p, _, rfl⟩ := List.mem_map.mp hr
  rfl

/-- The store as the delete step leaves it: the conditional delete of all rows
for the path (executed only when the limit-1 lookup found a row). -/
def storeAfterDelete (store : List NoteRecord) (path : String) : List NoteRecord :=
  if 0 < (dbSelectChecksum store path).length then
    store.filter (fun r => !(r.filename == path))
  else store

/-- The store left behind by the delete step holds no row for the path: either
it was filtered by the delete statement, or no row for the path existed. -/
theorem storeAfterDelete_no_path (store : List NoteRecord) (path : String) :
    (storeAfterDelete store path).filter (fun r => r.filename == path) = [] := by
  rw [storeAfterDelete]
  split
  · rw [List.filter_filter]
    refine List.filter_eq_nil_iff.mpr (fun r _ => ?_)
    simp
  · rename_i hlen
    refine (dbSelectChecksum_eq_nil_iff store path).mp ?_
    cases h : dbSelectChecksum store path with
    | nil => rfl
    | cons a l => exact absurd (by simp [h]) hlen

/-- Characterization of the skip branch of `loadMarkdownFileToDb`. -/
theorem load_skip_eq (env : IndexEnv) (store : List NoteRecord) (path : String)
    (content : List Char)
    (h : (dbSelectChecksum store path).head? = some (env.sha256 content)) :
    loadMarkdownFileToDb env store path content =
      { store := store, processed := false, embedCalls := 0,
        deletedRows := 0, insertedRows := 0 } := by
  rw [loadMarkdownFileToDb, if_pos h]

/-- Characterization of the delete-then-insert branch of
`loadMarkdownFileToDb`. -/
theorem load_reindex_eq (env : IndexEnv) (store : List NoteRecord) (path : String)
    (content : List Char)
    (h : ¬(dbSelectChecksum store path).head? = some (env.sha256 content)) :
    loadMarkdownFileToDb env store path content =
      { store := storeAfterDelete store path
          ++ newRecords env path (env.sha256 content)
              (extractAttrsAndBody env content).1
              (env.chunker (extractAttrsAndBody env content).2),
        processed := true,
        embedCalls := 2 * (env.chunker (extractAttrsAndBody env content).2).length,
        deletedRows := if 0 < (dbSelectChecksum store path).length then
            (store.filter (fun r => r.filename == path)).length
          else 0,
        insertedRows := (newRecords env path (env.sha256 content)
            (extractAttrsAndBody env content).1
            (env.chunker (extractAttrsAndBody env content).2)).length } := by
  rw [loadMarkdownFileToDb, if_neg h]
  rfl

/-- After the delete-then-insert sequence, the limit-1 select for the path
returns exactly the new batch's checksum (the batch being nonempty). -/
theorem dbSelect_after_insert (env : IndexEnv) (store₁ : List NoteRecord)
    (path : String) (checksum : String) (attrs : Option String)
    (chunks : List (List Char))
    (h1 : store₁.filter (fun r => r.filename == path) = [])
    (hch : chunks ≠ []) :
    dbSelectChecksum (store₁ ++ newRecords env path checksum attrs chunks) path
      = [checksum] := by
  rw [dbSelectChecksum, List.filter_append, h1, List.nil_append]
  have hfil : (newRecords env path checksum attrs chunks).filter
      (fun r => r.filename == path) = newRecords env path checksum attrs chunks :=
    List.filter_eq_self.mpr (fun r hr => by
      simp [newRecords_filename env path checksum attrs chunks r hr])
  rw [hfil]
  obtain ⟨c, cs, rfl⟩ := List.exists_cons_of_ne_nil hch
  simp [newRecords, List.enum]

/-- A concrete environment for witnesses: SHA-256 distinguishes the contents
`"A"` and anything else, the embedding is the (deterministic) input length,
there is no frontmatter, and the chunker produces one chunk. -/
def testEnv : IndexEnv :=
  { sha256 := fun c => if c = ['A'] then "ckA" else "ckB"
    embed := fun t _ => [Int.ofNat t.length]
    fmTest := fun _ => false
    fmExtract := fun _ => (none, [])
    chunker := fun b => [b] }

/-- Like `testEnv` but the chunker cuts a body into two chunks, so a complete
index of one file holds two rows. -/
def testEnv₂ : IndexEnv :=
  { testEnv with chunker := fun b => [b, b] }

/-!
## Claim C10 — the skip decision and its frame

The skip test reads one row (`limit(1)`) and, when that row's checksum
matches, the call returns `false` having touched nothing — also when the
stored row set for the file is incomplete, so a partial set is never repaired
by a re-run.
-/

/-- C10 counterexample: in a store holding two rows for `"g.md"` with
different checksums (`"ckX"` first, then `"ckB"`), *some* stored record's
checksum equals the fresh checksum `"ckB"`, yet the call does not skip: the
limit-1 lookup sees only the first row `"ckX"`, so the file is deleted and
re-inserted and the call returns `true`. -/
theorem loadMarkdownFileToDb_mixed_store_reindexes :
    (∃ r ∈ ([⟨"g.md", 0, [], [], [], "ckX", none⟩,
             ⟨"g.md", 1, [], [], [], "ckB", none⟩] : List NoteRecord),
        r.filename = "g.md" ∧ r.checksum = testEnv.sha256 ['B'])
    ∧ (loadMarkdownFileToDb testEnv
        [⟨"g.md", 0, [], [], [], "ckX", none⟩,
         ⟨"g.md", 1, [], [], [], "ckB", none⟩] "g.md" ['B']).processed = true
    ∧ (loadMarkdownFileToDb testEnv
        [⟨"g.md", 0, [], [], [], "ckX", none⟩,
         ⟨"g.md", 1, [], [], [], "ckB", none⟩] "g.md" ['B']).deletedRows = 2 :=
  ⟨by decide, by decide, by decide⟩

/-- C10 amended: the skip decision reads at most one stored record — whenever
the *first* stored record for the exact path (the one row the limit-1 lookup
returns) has a checksum equal to the freshly computed one, the call returns
`false` and leaves the store byte-for-byte unchanged, with zero embedding
calls, zero deleted rows and zero inserted rows — regardless of whether the
stored record set for the file is complete, so a partial set is never repaired
by a re-run. -/
theorem loadMarkdownFileToDb_skip_frame (env : IndexEnv) (store : List NoteRecord)
    (path : String) (content : List Char)
    (h : (store.find? (fun r => r.filename == path)).map (fun r => r.checksum)
        = some (env.sha256 content)) :
    loadMarkdownFileToDb env store path content =
      { store := store, processed := false, embedCalls := 0,
        deletedRows := 0, insertedRows := 0 } := by
  rw [loadMarkdownFileToDb, if_pos (by rw [dbSelectChecksum_head?, h])]

/-- C10 amended witness: a store holding only chunk 0 of a file whose
indexing would produce two chunks (an incomplete set left by an interrupted
run, with the current checksum) is left untouched and the call reports a
skip. -/
theorem loadMarkdownFileToDb_skip_frame_witness :
    ((([⟨"f.md", 0, ['A'], [1], [4], "ckA", none⟩] : List NoteRecord).find?
        (fun r => r.filename == "f.md")).map (fun r => r.checksum)
      = some (testEnv₂.sha256 ['A']))
    ∧ (testEnv₂.chunker ['A']).length = 2
    ∧ loadMarkdownFileToDb testEnv₂ [⟨"f.md", 0, ['A'], [1], [4], "ckA", none⟩]
        "f.md" ['A'] =
      { store := [⟨"f.md", 0, ['A'], [1], [4], "ckA", none⟩], processed := false,
        embedCalls := 0, deletedRows := 0, insertedRows := 0 } :=
  ⟨by decide, by decide,
   loadMarkdownFileToDb_skip_frame testEnv₂ _ "f.md" ['A'] (by decide)⟩

/-!
## Claim C4 — idempotence of indexing an unchanged file
-/

/-- C4 counterexample: "at least one indexed record with the fresh checksum
exists" does not make the call skip.  With rows `"ckOLD"` then `"ckA"` stored
for `"f.md"` and fresh checksum `"ckA"`, a matching record exists, yet the
call deletes both rows, re-embeds and re-inserts, and returns `true`. -/
theorem loadMarkdownFileToDb_matching_record_not_skipped :
    (∃ r ∈ ([⟨"f.md", 0, [], [], [], "ckOLD", none⟩,
             ⟨"f.md", 1, [], [], [], "ckA", none⟩] : List NoteRecord),
        r.filename = "f.md" ∧ r.checksum = testEnv.sha256 ['A'])
    ∧ (loadMarkdownFileToDb testEnv
        [⟨"f.md", 0, [], [], [], "ckOLD", none⟩,
         ⟨"f.md", 1, [], [], [], "ckA", none⟩] "f.md" ['A']).processed = true
    ∧ 0 < (loadMarkdownFileToDb testEnv
        [⟨"f.md", 0, [], [], [], "ckOLD", none⟩,
         ⟨"f.md", 1, [], [], [], "ckA", none⟩] "f.md" ['A']).embedCalls
    ∧ 0 < (loadMarkdownFileToDb testEnv
        [⟨"f.md", 0, [], [], [], "ckOLD", none⟩,
         ⟨"f.md", 1, [], [], [], "ckA", none⟩] "f.md" ['A']).deletedRows
    ∧ 0 < (loadMarkdownFileToDb testEnv
        [⟨"f.md", 0, [], [], [], "ckOLD", none⟩,
         ⟨"f.md", 1, [], [], [], "ckA", none⟩] "f.md" ['A']).insertedRows :=
  ⟨by decide, by decide, by decide, by decide, by decide⟩

/-- C4 amended: indexing is idempotent run-to-run — for any starting store,
running `loadMarkdownFileToDb` twice in a row on the same path and unchanged
content (whose body yields at least one chunk, as every real file does) makes
the second run a pure skip: it returns `false`, performs zero embedding
calls, zero deletes and zero inserts, and leaves the store exactly as the
first run left it.  (The skip gate itself compares the fresh checksum against
the single first stored record returned by the limit-1 lookup, not against
"at least one" matching record; see the counterexample.) -/
theorem loadMarkdownFileToDb_idempotent (env : IndexEnv) (store : List NoteRecord)
    (path : String) (content : List Char)
    (hchunks : env.chunker (extractAttrsAndBody env content).2 ≠ []) :
    loadMarkdownFileToDb env (loadMarkdownFileToDb env store path content).store
        path content =
      { store := (loadMarkdownFileToDb env store path content).store,
        processed := false, embedCalls := 0, deletedRows := 0,
        insertedRows := 0 } := by
  by_cases hskip : (dbSelectChecksum store path).head? = some (env.sha256 content)
  · rw [load_skip_eq env store path content hskip]
    exact load_skip_eq env store path content hskip
  · rw [load_reindex_eq env store path content hskip]
    refine load_skip_eq env _ path content ?_
    rw [dbSelect_after_insert env (storeAfterDelete store path) path
      (env.sha256 content) (extractAttrsAndBody env content).1
      (env.chunker (extractAttrsAndBody env content).2)
      (storeAfterDelete_no_path store path) hchunks]
    rfl

/-- C4 amended witness: from the empty store, indexing `"f.md"` and then
indexing it again with unchanged content makes the second run a pure skip on
the store the first run produced. -/
theorem loadMarkdownFileToDb_idempotent_witness :
    (testEnv.chunker (extractAttrsAndBody testEnv ['A']).2 ≠ [])
    ∧ loadMarkdownFileToDb testEnv
        (loadMarkdownFileToDb testEnv [] "f.md" ['A']).store "f.md" ['A'] =
      { store := (loadMarkdownFileToDb testEnv [] "f.md" ['A']).store,
        processed := false, embedCalls := 0, deletedRows := 0,
        insertedRows := 0 } :=
  ⟨by decide, loadMarkdownFileToDb_idempotent testEnv [] "f.md" ['A'] (by decide)⟩

/-!
## Claim C7 — the persisted-record invariant
-/

/-- `storeAfterDelete` is a sublist of the store. -/
theorem storeAfterDelete_sublist (store : List NoteRecord) (path : String) :
    List.Sublist (storeAfterDelete store path) store := by
  rw [storeAfterDelete]
  split
  · exact List.filter_sublist store
  · exact List.Sublist.refl store

/-- A freshly inserted batch satisfies the record invariant internally: all
rows share `filename`, `checksum` and `filename_vector` by construction, and
their `chunk_index`es are the pairwise-distinct positions `0, 1, 2, …`. -/
theorem newRecords_pairwise (env : IndexEnv) (path : String) (checksum : String)
    (attrs : Option String) (chunks : List (List Char)) :
    (newRecords env path checksum attrs chunks).Pairwise (fun r s =>
      r.filename = s.filename → r.checksum = s.checksum ∧
        r.filename_vector = s.filename_vector ∧ r.chunk_index ≠ s.chunk_index) := by
  rw [newRecords, List.pairwise_map]
  have h1 : (chunks.enum.map Prod.fst).Nodup := by
    rw [List.enum_map_fst]
    exact List.nodup_range _
  have hfst : chunks.enum.Pairwise (fun p q => p.1 ≠ q.1) := List.pairwise_map.mp h1
  refine hfst.imp ?_
  intro p q hpq _
  exact ⟨rfl, rfl, hpq⟩

/-- The `chunk_index` column of a fresh batch is `0, 1, …, length - 1`. -/
theorem newRecords_map_idx (env : IndexEnv) (path : String) (checksum : String)
    (attrs : Option String) (chunks : List (List Char)) :
    (newRecords env path checksum attrs chunks).map (fun r => r.chunk_index)
      = List.range chunks.length := by
  rw [newRecords, List.map_map]
  exact List.enum_map_fst chunks

/-- One row per chunk. -/
theorem newRecords_length (env : IndexEnv) (path : String) (checksum : String)
    (attrs : Option String) (chunks : List (List Char)) :
    (newRecords env path checksum attrs chunks).length = chunks.length := by
  rw [newRecords, List.length_map, List.enum_length]

/-- One `loadMarkdownFileToDb` call preserves the record invariant. -/
theorem StoreInv_step (env : IndexEnv) (store : List NoteRecord) (path : String)
    (content : List Char) (hInv : StoreInv store) :
    StoreInv (loadMarkdownFileToDb env store path content).store := by
  by_cases hskip : (dbSelectChecksum store path).head? = some (env.sha256 content)
  · rw [load_skip_eq env store path content hskip]
    exact hInv
  · rw [load_reindex_eq env store path content hskip]
    dsimp only
    rw [StoreInv, List.pairwise_append]
    refine ⟨hInv.sublist (storeAfterDelete_sublist store path), ?_, ?_⟩
    · exact newRecords_pairwise env path (env.sha256 content) _ _
    · intro a ha b hb hfn
      exfalso
      have hbpath : b.filename = path := newRecords_filename env path _ _ _ b hb
      have hapath : (a.filename == path) = false := by
        have := List.filter_eq_nil_iff.mp (storeAfterDelete_no_path store path) a ha
        simpa using this
      rw [hfn, hbpath] at hapath
      simp at hapath

/-- The chunk indices stored for each file form the initial segment
`0, 1, …` of the naturals, in store order. -/
def SeqIdx (store : List NoteRecord) : Prop :=
  ∀ path : String,
    (store.filter (fun r => r.filename == path)).map (fun r => r.chunk_index)
      = List.range ((store.filter (fun r => r.filename == path)).length)

/-- One `loadMarkdownFileToDb` call preserves sequential per-file chunk
numbering. -/
theorem SeqIdx_step (env : IndexEnv) (store : List NoteRecord) (path : String)
    (content : List Char) (hseq : SeqIdx store) :
    SeqIdx (loadMarkdownFileToDb env store path content).store := by
  by_cases hskip : (dbSelectChecksum store path).head? = some (env.sha256 content)
  · rw [load_skip_eq env store path content hskip]
    exact hseq
  · rw [load_reindex_eq env store path content hskip]
    dsimp only
    intro q
    rw [List.filter_append, List.map_append, List.length_append]
    by_cases hq : q = path
    · subst hq
      rw [storeAfterDelete_no_path store q]
      have hfil : (newRecords env q (env.sha256 content)
          (extractAttrsAndBody env content).1
          (env.chunker (extractAttrsAndBody env content).2)).filter
            (fun r => r.filename == q)
          = newRecords env q (env.sha256 content)
              (extractAttrsAndBody env content).1
              (env.chunker (extractAttrsAndBody env content).2) :=
        List.filter_eq_self.mpr (fun r hr => by
          simp [newRecords_filename env q _ _ _ r hr])
      rw [hfil, newRecords_map_idx, newRecords_length]
      simp
    · have hrecs : (newRecords env path (env.sha256 content)
          (extractAttrsAndBody env content).1
          (env.chunker (extractAttrsAndBody env content).2)).filter
            (fun r => r.filename == q) = [] :=
        List.filter_eq_nil_iff.mpr (fun r hr => by
          have := newRecords_filename env path _ _ _ r hr
          simp [this]
          exact fun hcontra => hq hcontra.symm)
      have hsd : (storeAfterDelete store path).filter (fun r => r.filename == q)
          = store.filter (fun r => r.filename == q) := by
        rw [storeAfterDelete]
        split
        · rw [List.filter_filter]
          refine List.filter_congr ?_
          intro r _
          by_cases hr : r.filename = q
          · have : (r.filename == path) = false := by
              simp only [hr, beq_eq_false_iff_ne, ne_eq]
              exact hq
            simp [hr, this, hq]
          · simp [beq_eq_false_iff_ne.mpr hr]
        · rfl
      rw [hrecs, hsd]
      simpa using hseq q

/-- Folding over an operation sequence preserves both store invariants. -/
theorem runOps_preserves (env : IndexEnv) :
    ∀ (ops : List (String × List Char)) (init : List NoteRecord),
      StoreInv init ∧ SeqIdx init →
      StoreInv (runOps env init ops) ∧ SeqIdx (runOps env init ops)
  | [], _, h => h
  | op :: ops, init, h =>
    runOps_preserves env ops (loadMarkdownFileToDb env init op.1 op.2).store
      ⟨StoreInv_step env init op.1 op.2 h.1, SeqIdx_step env init op.1 op.2 h.2⟩

/-- C7: after any sequence of successful `indexFile` operations starting from
an empty store, any two distinct records sharing a `filename` share the same
`checksum` and the same `filename_vector` (the per-chunk recomputed filename
embedding is a fixed function of the path in any one environment) and have
distinct `chunk_index`es; moreover the chunk indices stored for each file are
exactly the sequentially assigned `0, 1, 2, …` (old records being deleted
before each new batch is inserted). -/
theorem runOps_storeInv (env : IndexEnv) (ops : List (String × List Char)) :
    StoreInv (runOps env [] ops) ∧ SeqIdx (runOps env [] ops) :=
  runOps_preserves env ops [] ⟨List.Pairwise.nil, fun _ => rfl⟩

end RoboMom
